import Mathlib

/-!
# Formal model of `tools/catalog.py` and `tools/plot_tools.py`

This file gives a shallow embedding in Lean 4 of the `Catalog` container
class (`src/tools/catalog.py`) and of the calculation part of the
`binned_plot` utility (`src/tools/plot_tools.py`), and proves the
spec-level properties about them.

Modelling conventions, fixed once here:

* Numeric scalars (cluster properties, galaxy observables, metadata
  values) are modelled as `ℚ`.  The only numeric coercion the code
  performs is the forced `float64` cast of property columns in
  `save_npy`, which is value-preserving in this model; the `int(...)`
  truncation applied to `Ngal` is modelled exactly (`ratTrunc`).
* Field/column names are modelled as `List Char` (`PyStr`), so that the
  `'gal_'` prefix tests and strips of `save_npy`/`load_npy`
  (`name[:4] == 'gal_'`, `name[4:]`) become `List.take`/`List.drop`.
* A pandas `DataFrame` is a column-name list plus a list of rows; the
  integer row index is modelled positionally, so `reset_index(drop=True)`
  is the identity of the model.
* A numpy structured array (one galaxy table) is a field-name list plus
  one value column per field, together with its row count `nrows`
  (carried explicitly so that zero-field tables still have a length).
* The `gal` attribute is modelled as a sequence of galaxy tables.
  Where the numpy representation of the sequence changes its meaning —
  `np.append` in `__add__` ravels each operand, so equal-length tables
  are first stacked into a 2-d array and then flattened into
  single-galaxy records — the model follows the array `asanyarray`
  builds from the table sequence itself (`ravelGal`), which is also the
  representation `load_npy`'s `np.array(gals)` produces.
* File I/O is modelled by returning / consuming the written value
  directly; the code never mutates an existing catalog except in the two
  `load` paths, whose in-place field replacement is modelled by building
  the resulting instance from the loaded fields.
-/

/-- Python strings used as field/column names: modelled as `List Char`. -/
abbrev PyStr := List Char

/-- The literal `'Ngal'`. -/
def ngalName : PyStr := "Ngal".toList

/-- The reserved galaxy-field marker `'gal_'` prepended by `save_npy`
and tested/stripped by `load_npy`. -/
def galMark : PyStr := "gal_".toList

/-- One numpy structured array of galaxies (`gal[i]` in the source):
field names, one value column per field (all of length `nrows`), and the
row count. -/
structure GalTable where
  fields : List PyStr
  cols : List (List ℚ)
  nrows : Nat
  deriving DecidableEq, Repr

/-- Default galaxy table (used as the `getD` fallback; never reached
under the data-model invariants). -/
def gdef : GalTable := ⟨[], [], 0⟩

/-- A pandas DataFrame (the `prop` attribute): named columns and a list
of rows, the integer index being modelled positionally. -/
structure DataFrame where
  cols : List PyStr
  rows : List (List ℚ)
  deriving DecidableEq, Repr

/-- The `Catalog` class of `src/tools/catalog.py`: metadata mapping
`par`, property table `prop`, galaxy-table sequence `gal`. -/
structure Catalog where
  par : List (PyStr × ℚ)
  prop : DataFrame
  gal : List GalTable
  deriving DecidableEq, Repr

/-- Python `list`/`ndarray`/`.iloc` index resolution for a container of
length `n`: `0 ≤ i < n` selects `i`, negative `-n ≤ i < 0` wraps to
`n + i`, anything else is out of bounds. -/
def pyIdx (n : Nat) (i : Int) : Option Nat :=
  if 0 ≤ i ∧ i < (n : Int) then some i.toNat
  else if -(n : Int) ≤ i ∧ i < 0 then some (n - (-i).toNat)
  else none

/-- The selector passed to `Catalog.__getitem__` (source line 41).  The
`isinstance(key, int)` test of line 43 accepts Python `bool` as well
(`bool` is a subclass of `int`), so booleans are a separate constructor
whose key-type dispatch must be modelled. -/
inductive PyKey where
  | int (i : Int)
  | bool (b : Bool)
  | list (l : List Int)
  | array (l : List Int)
  | str (s : String)
  deriving DecidableEq, Repr

/-- Errors surfaced by `__getitem__`:
* `unknownKeyType` — the `raise Exception("Unknown key type: " + str(type(key)))`
  of source line 49 (the Python rendering `<class 'str'>` is modelled
  without its inner quotes);
* `outOfBounds` — the `IndexError` pandas `.iloc` raises for an
  out-of-range integer or integer list;
* `nonIntegerKey` — the error pandas `.iloc` raises for a scalar `bool`
  key: its key validation (`is_integer`) deliberately excludes `bool`,
  so `prop.iloc[True]` fails with its non-integer-key error rather than
  selecting row 1. -/
inductive PyErr where
  | unknownKeyType (tyName : String)
  | outOfBounds
  | nonIntegerKey
  deriving DecidableEq, Repr

/-- The value built by `__getitem__` on success.  With a list/array key
the source builds a well-formed `Catalog`.  With a single integer key
`prop.iloc[key]` is a pandas *Series* (the selected row's values, whose
index `reset_index(drop=True)` renumbers over the former column
positions) and `gal[key]` is the bare galaxy table, so the constructed
object is a degenerate catalog carrying those; the model keeps that
shape distinct. -/
inductive GetResult where
  | catalog (c : Catalog)
  | degenerate (par : List (PyStr × ℚ)) (propRow : List ℚ) (galTab : GalTable)
  deriving DecidableEq, Repr

/-- Result of a `__getitem__` call. -/
inductive PyResult where
  | ok (r : GetResult)
  | error (e : PyErr)
  deriving DecidableEq, Repr

/-- `Catalog.__getitem__` (source lines 41–49).  The bounds/type errors
of `prop.iloc[key]` are raised before `gal[key]` is evaluated (the
keyword arguments of the `Catalog(...)` call are evaluated in order), so
the surfaced error is always the pandas one.  The function mutates
nothing — the source assigns to no attribute on this path — which is why
it is modelled as a pure function of the catalog. -/
def getitem (c : Catalog) (k : PyKey) : PyResult :=
  match k with
  | .int i =>
    match pyIdx c.prop.rows.length i with
    | some j => .ok (.degenerate c.par (c.prop.rows.getD j []) (c.gal.getD j gdef))
    | none => .error .outOfBounds
  | .bool _ => .error .nonIntegerKey
  | .list l =>
    match l.mapM (pyIdx c.prop.rows.length) with
    | some js =>
      .ok (.catalog ⟨c.par, ⟨c.prop.cols, js.map (fun j => c.prop.rows.getD j [])⟩,
        js.map (fun j => c.gal.getD j gdef)⟩)
    | none => .error .outOfBounds
  | .array l =>
    match l.mapM (pyIdx c.prop.rows.length) with
    | some js =>
      .ok (.catalog ⟨c.par, ⟨c.prop.cols, js.map (fun j => c.prop.rows.getD j [])⟩,
        js.map (fun j => c.gal.getD j gdef)⟩)
    | none => .error .outOfBounds
  | .str _ => .error (.unknownKeyType "<class str>")

/-- `Catalog.__len__` (source lines 58–60): `len(self.prop)`, the row
count of the property table. -/
def Catalog.len (c : Catalog) : Nat := c.prop.rows.length

/-! ## The padded fixed-width `.npy` codec (`save_npy` / `load_npy`) -/

/-- One stored field value of an output record: property columns become
`float64` scalars, `gal_`-prefixed fields are fixed-length vectors. -/
inductive NpyVal where
  | scalar (q : ℚ)
  | vector (vs : List ℚ)
  deriving DecidableEq, Repr

/-- The flat structured array written by `save_npy` (line 110): the
dtype's field names in order, and one value list per record, aligned
with the names. -/
structure NpyFile where
  dtypeNames : List PyStr
  records : List (List NpyVal)
  deriving DecidableEq, Repr

/-- Field access by name in a structured record (numpy resolves a field
name to its position in the dtype; first match, default on a missing
name — the source would raise `KeyError` there, a case the call sites
rule out). -/
def getFieldD {α : Type} (ns : List PyStr) (vs : List α) (nm : PyStr) (d : α) : α :=
  match ns, vs with
  | n :: ns, v :: vs => if n = nm then v else getFieldD ns vs nm d
  | _, _ => d

/-- Position of a column name in a column list (pandas/numpy name
resolution; first match). -/
def colIdx? (cols : List PyStr) (nm : PyStr) : Option Nat :=
  match cols with
  | [] => none
  | c :: t => if c = nm then some 0 else (colIdx? t nm).map (· + 1)

/-- Python `int(...)` applied to a float: truncation toward zero. -/
def ratTrunc (q : ℚ) : Int := if q < 0 then -Rat.floor (-q) else Rat.floor q

/-- `Series.max()`: maximum of a column, no value on an empty table. -/
def listMax? : List ℚ → Option ℚ
  | [] => none
  | x :: t => some ((listMax? t).elim x (max x))

/-- `self.prop[x].values`: one property column as a list. -/
def dfColD (df : DataFrame) (i : Nat) : List ℚ :=
  df.rows.map (fun r => r.getD i 0)

/-- `self.gal[i][f]`: one galaxy column selected by field name. -/
def galColD (g : GalTable) (f : PyStr) : List ℚ :=
  getFieldD g.fields g.cols f []

/-- The shared galaxy-table schema, read off `self.gal[0]` exactly as
`save_npy` does (lines 93–94, 104). -/
def galSchemaOf (c : Catalog) : List PyStr := (c.gal.getD 0 gdef).fields

/-- Position of the `Ngal` column in the property table. -/
def ngalIdx (c : Catalog) : Nat := (colIdx? c.prop.cols ngalName).getD 0

/-- `max_ngal` of `save_npy` line 90: `int(self.prop['Ngal'].max())`
(the `int` cast happens at line 93). -/
def maxNgalOf (c : Catalog) : Nat :=
  (ratTrunc ((listMax? (dfColD c.prop (ngalIdx c))).getD 0)).toNat

/-- `out[i]['gal_'+f][:n] = src` (line 105): the first `n` slots of the
zero-filled vector `dest` are overwritten with `src`.  numpy requires
`src` to have exactly `n` entries; on catalogs satisfying the data-model
invariants it does, so the truncating model below agrees with the code
wherever the code runs. -/
def sliceWrite (dest : List ℚ) (n : Nat) (src : List ℚ) : List ℚ :=
  src.take n ++ dest.drop n

/-- `Catalog.save_npy` (source lines 80–110), up to the final
`np.save`: the written array is returned instead.  `none` models the
exceptions of this path: `self.gal[0]` on an empty galaxy sequence
(`IndexError`), a missing `Ngal` column (`KeyError`), and an empty
property table (`int(nan)` from `.max()`).  Property columns are cast to
`float64`, which is value-preserving in the `ℚ` model.  Metadata `par`
is not written (lines 107–108 only print it). -/
def saveNpy (c : Catalog) : Option NpyFile := do
  let g0 ← c.gal.head?
  let nIdx ← colIdx? c.prop.cols ngalName
  let mx ← listMax? (dfColD c.prop nIdx)
  let maxNgal := (ratTrunc mx).toNat
  let names := c.prop.cols ++ g0.fields.map (fun f => galMark ++ f)
  let recs := (List.range c.prop.rows.length).map (fun i =>
    let row := c.prop.rows.getD i []
    let ng := (ratTrunc (row.getD nIdx 0)).toNat
    row.map NpyVal.scalar ++
      g0.fields.map (fun f =>
        NpyVal.vector (sliceWrite (List.replicate maxNgal 0) ng
          (galColD (c.gal.getD i gdef) f))))
  pure ⟨names, recs⟩

/-- The `i[0][:4] == 'gal_'` test of `load_npy` line 118. -/
def isGalName (nm : PyStr) : Bool := nm.take 4 == galMark

/-- Reading a scalar field (`x[i][name]` for a property field). -/
def asScalar : NpyVal → ℚ
  | .scalar q => q
  | .vector vs => vs.getD 0 0

/-- Reading a vector field (`x[i]['gal_'+field]`). -/
def asVector : NpyVal → List ℚ
  | .vector vs => vs
  | .scalar q => [q]

/-- `gals[i][field] = x[i]['gal_'+field][:n]` (line 124): the freshly
zero-allocated length-`n` column receives the first `n` padded-vector
entries.  numpy requires exactly `n` of them; files produced by
`save_npy` satisfy this, so the zero-padding fallback is never
exercised there. -/
def padTrunc (n : Nat) (xs : List ℚ) : List ℚ :=
  xs.take n ++ List.replicate (n - xs.length) 0

/-- `Catalog.load_npy` (source lines 112–131), with the already-read
array as input.  Field names carrying the `gal_` marker are stripped
into the galaxy schema, each cluster's sub-table is rebuilt with exactly
`int(x['Ngal'][i])` rows, the remaining fields are rebuilt into the
property table in stored order, and `par` is set from the caller-supplied
mapping (the source defaults it to `{}`; the model's default is `[]`).
`none` models the `KeyError` of `x['Ngal']` on a file without that
field.  The reconstructed instance replaces all three attributes of
`self` and is returned, so the result is determined by the file and
`par` alone. -/
def loadNpy (f : NpyFile) (par : List (PyStr × ℚ)) : Option Catalog := do
  let _ ← colIdx? f.dtypeNames ngalName
  let galNames := (f.dtypeNames.filter isGalName).map (fun nm => nm.drop 4)
  let propNames := f.dtypeNames.filter (fun nm => !isGalName nm)
  let gals := f.records.map (fun r =>
    let ng := (ratTrunc (asScalar (getFieldD f.dtypeNames r ngalName (NpyVal.scalar 0)))).toNat
    GalTable.mk galNames
      (galNames.map (fun fl =>
        padTrunc ng ((asVector (getFieldD f.dtypeNames r (galMark ++ fl) (NpyVal.scalar 0))).take ng)))
      ng)
  let prop := DataFrame.mk propNames
    (f.records.map (fun r =>
      propNames.map (fun nm => asScalar (getFieldD f.dtypeNames r nm (NpyVal.scalar 0)))))
  pure ⟨par, prop, gals⟩

/-- The data-model invariants of the spec (§3), as they apply to the
model: distinct property columns including `Ngal`, no property column
using the reserved `gal_` marker, rectangular property rows, one galaxy
table per property row, a shared galaxy schema with distinct fields,
rectangular galaxy tables, and `Ngal` equal to the galaxy count at every
index. -/
def WF (c : Catalog) : Prop :=
  c.prop.cols.Nodup ∧
  ngalName ∈ c.prop.cols ∧
  (∀ nm ∈ c.prop.cols, ¬ nm.take 4 = galMark) ∧
  (∀ r ∈ c.prop.rows, r.length = c.prop.cols.length) ∧
  c.gal.length = c.prop.rows.length ∧
  (∀ g ∈ c.gal, g.fields = galSchemaOf c) ∧
  (galSchemaOf c).Nodup ∧
  (∀ g ∈ c.gal, g.cols.length = g.fields.length) ∧
  (∀ g ∈ c.gal, ∀ col ∈ g.cols, col.length = g.nrows) ∧
  (∀ i, i < c.gal.length →
    (c.prop.rows.getD i []).getD (ngalIdx c) 0 = ((c.gal.getD i gdef).nrows : ℚ))

/-! ## Concatenation (`__add__`) -/

/-- Projection of one appended row onto the left table's columns.
`DataFrame.append` aligns rows by column name; with identical schemas
(the only case the spec defines) this reproduces the row.  The
NaN-filling column union pandas performs for mismatched schemas is
outside the model, as the spec declares that case undefined. -/
def projRow (cols bcols : List PyStr) (r : List ℚ) : List ℚ :=
  cols.map (fun c => getFieldD bcols r c 0)

/-- `self.prop.append(catalog.prop).reset_index(drop=True)` (lines
54–55): the left table's columns, with the right table's rows appended
after the left's; the renumbered integer index is positional in the
model. -/
def dfAppend (a b : DataFrame) : DataFrame :=
  ⟨a.cols, a.rows ++ b.rows.map (projRow a.cols b.cols)⟩

/-- One element of the 1-d array `np.append(self.gal, catalog.gal)`
produces: either a whole galaxy table (an object-array element, the
ragged case) or a single galaxy record (one `np.void` row of field
values, the case where equal-length tables were stacked 2-d and
raveled). -/
inductive GalElem where
  | table (g : GalTable)
  | row (vals : List ℚ)
  deriving DecidableEq, Repr

/-- Whether all galaxy tables of a sequence share one row count — the
condition under which `asanyarray` stacks them into a 2-d structured
array instead of a 1-d object array.  A one-table sequence is always
stacked. -/
def uniformLens : List GalTable → Bool
  | [] => true
  | g :: t => t.all (fun h => h.nrows == g.nrows)

/-- Galaxy `j` of a table as a single structured record: one value per
field. -/
def galRecord (g : GalTable) (j : Nat) : List ℚ :=
  g.cols.map (fun col => col.getD j 0)

/-- A table flattened into its galaxy records, in row order. -/
def flattenGal (g : GalTable) : List GalElem :=
  (List.range g.nrows).map (fun j => GalElem.row (galRecord g j))

/-- `ravel(asanyarray(gs))` for a sequence of galaxy tables: a ragged
sequence becomes (stays) a 1-d object array of the tables; a sequence
whose tables all share one length is stacked 2-d and raveled into the
individual galaxy records.  This is the array built from the table
sequence itself — the representation direct construction and
`load_npy`'s `np.array(gals)` yield.  (numpy's behaviour is
representation-dependent: a 1-d object array that happens to hold
equal-length tables, obtainable by list-indexing a ragged catalog,
would pass through unflattened; that provenance distinction is beyond
the value-level model and unneeded for the claims.) -/
def ravelGal (gs : List GalTable) : List GalElem :=
  if uniformLens gs then (gs.map flattenGal).flatten
  else gs.map GalElem.table

/-- `np.append(self.gal, catalog.gal)` (line 56): with the default
`axis=None`, numpy ravels each operand and concatenates the resulting
1-d arrays. -/
def npAppendGal (a b : List GalTable) : List GalElem :=
  ravelGal a ++ ravelGal b

/-- The object `Catalog.__add__` builds: a Catalog whose `gal`
attribute is the raveled concatenation, which is a sequence of galaxy
tables only in the ragged case. -/
structure AddResult where
  par : List (PyStr × ℚ)
  prop : DataFrame
  gal : List GalElem
  deriving DecidableEq, Repr

/-- `Catalog.__add__` (source lines 51–56): metadata from the left
operand, appended property tables, and the galaxy sequences combined by
`np.append`, i.e. raveled and concatenated. -/
def addCat (a b : Catalog) : AddResult :=
  ⟨a.par, dfAppend a.prop b.prop, npAppendGal a.gal b.gal⟩

/-! ## Opaque object persistence (`save` / `load`)

`save` pickles the whole object to a file and `load` unpickles it,
copying the three attributes onto `self` and returning `self` (source
lines 62–78).  Pickle itself is modelled as what it is for this object
graph: a self-describing flattening into a token stream — length-
prefixed lists of tagged scalar tokens — together with the reader that
rebuilds the identical structure. -/

/-- One token of the modelled pickle stream. -/
inductive Tok where
  | tn (k : Nat)
  | tq (x : ℚ)
  | ts (s : PyStr)
  deriving DecidableEq, Repr

/-- Serialize one rational. -/
def encQ (x : ℚ) : List Tok := [.tq x]

/-- Serialize one name. -/
def encS (s : PyStr) : List Tok := [.ts s]

/-- Serialize one natural number. -/
def encN (k : Nat) : List Tok := [.tn k]

/-- Serialize a list: length header, then the elements. -/
def encList {α : Type} (enc : α → List Tok) (xs : List α) : List Tok :=
  .tn xs.length :: (xs.map enc).flatten

/-- Serialize one metadata entry. -/
def encPairSQ (p : PyStr × ℚ) : List Tok := encS p.1 ++ encQ p.2

/-- Serialize a property table. -/
def encDF (d : DataFrame) : List Tok :=
  encList encS d.cols ++ encList (encList encQ) d.rows

/-- Serialize one galaxy table. -/
def encGal (g : GalTable) : List Tok :=
  encList encS g.fields ++ encList (encList encQ) g.cols ++ encN g.nrows

/-- Serialize a whole catalog (`pickle.dump(self, ...)`). -/
def encCat (c : Catalog) : List Tok :=
  encList encPairSQ c.par ++ encDF c.prop ++ encList encGal c.gal

/-- Read back one rational. -/
def decQ : List Tok → Option (ℚ × List Tok)
  | .tq x :: r => some (x, r)
  | _ => none

/-- Read back one name. -/
def decS : List Tok → Option (PyStr × List Tok)
  | .ts s :: r => some (s, r)
  | _ => none

/-- Read back one natural number. -/
def decN : List Tok → Option (Nat × List Tok)
  | .tn k :: r => some (k, r)
  | _ => none

/-- Read back `k` consecutive elements. -/
def decListAux {α : Type} (dec : List Tok → Option (α × List Tok)) :
    Nat → List Tok → Option (List α × List Tok)
  | 0, r => some ([], r)
  | k + 1, r => do
    let (a, r1) ← dec r
    let (as, r2) ← decListAux dec k r1
    pure (a :: as, r2)

/-- Read back a length-prefixed list. -/
def decList {α : Type} (dec : List Tok → Option (α × List Tok))
    (toks : List Tok) : Option (List α × List Tok) := do
  let (k, r) ← decN toks
  decListAux dec k r

/-- Read back one metadata entry. -/
def decPairSQ (toks : List Tok) : Option ((PyStr × ℚ) × List Tok) := do
  let (s, r1) ← decS toks
  let (x, r2) ← decQ r1
  pure ((s, x), r2)

/-- Read back a property table. -/
def decDF (toks : List Tok) : Option (DataFrame × List Tok) := do
  let (cs, r1) ← decList decS toks
  let (rs, r2) ← decList (decList decQ) r1
  pure (⟨cs, rs⟩, r2)

/-- Read back one galaxy table. -/
def decGal (toks : List Tok) : Option (GalTable × List Tok) := do
  let (fs, r1) ← decList decS toks
  let (cs, r2) ← decList (decList decQ) r1
  let (n, r3) ← decN r2
  pure (⟨fs, cs, n⟩, r3)

/-- Read back a whole catalog (`pickle.load(...)`). -/
def decCat (toks : List Tok) : Option (Catalog × List Tok) := do
  let (p, r1) ← decList decPairSQ toks
  let (d, r2) ← decDF r1
  let (gs, r3) ← decList decGal r2
  pure (⟨p, d, gs⟩, r3)

/-- `Catalog.save` (source lines 62–66): the blob written to the named
file. -/
def Catalog.save (c : Catalog) : List Tok := encCat c

/-- `Catalog.load` (source lines 68–78): unpickle the blob, replace
`self.par`, `self.prop` and `self.gal` with the loaded object's
attributes, and return `self`.  `none` models a malformed blob, on
which `pickle.load` raises. -/
def Catalog.load (self : Catalog) (blob : List Tok) : Option Catalog :=
  (decCat blob).map (fun p =>
    { self with par := p.1.par, prop := p.1.prop, gal := p.1.gal })

/-! ## `binned_plot` (`src/tools/plot_tools.py`)

Only the calculation part is modelled — the percentile expansion, the
bin edges, and the per-bin percentile records the function returns.  The
matplotlib drawing calls consume `bin_data` without changing it. -/

/-- Errors of `binned_plot`:
* `percentileOutOfRange` — the `raise Exception('Percentile > 50')` of
  line 40;
* `emptyData` — the `ValueError` `X.min()` raises on an empty array
  (line 42). -/
inductive PlotErr where
  | percentileOutOfRange
  | emptyData
  deriving DecidableEq, Repr

/-- Result of `binned_plot`: the per-bin percentile records (an empty
bin stores missing data, the `bin_data[i] = None` of line 51) and the
bin edges. -/
inductive PlotResult where
  | ok (bins : List (Option (List ℚ))) (edges : List ℚ)
  | error (e : PlotErr)
  deriving DecidableEq, Repr

/-- The percentile expansion loop of lines 32–40: `0` becomes the
median level `50`, `p ≤ 50` becomes the pair `50-p, 50+p`, and anything
above `50` raises (`none`), abandoning the whole call at the first
offender. -/
def calcPercent : List ℚ → Option (List ℚ)
  | [] => some []
  | p :: ps =>
    if p = 0 then (calcPercent ps).map (fun r => 50 :: r)
    else if p ≤ 50 then (calcPercent ps).map (fun r => (50 - p) :: (50 + p) :: r)
    else none

/-- `Series.min()` analogue for the `X.min()` of line 42. -/
def listMin? : List ℚ → Option ℚ
  | [] => none
  | x :: t => some ((listMin? t).elim x (min x))

/-- `np.linspace(a, b, m)`: `m` evenly spaced points from `a` to `b`
inclusive (exact in `ℚ`). -/
def linspace (a b : ℚ) (m : Nat) : List ℚ :=
  (List.range m).map (fun (j : Nat) => a + (j : ℚ) * (b - a) / ((m : ℚ) - 1))

/-- Insert into a sorted list (ascending). -/
def insertSorted (x : ℚ) : List ℚ → List ℚ
  | [] => [x]
  | y :: t => if x ≤ y then x :: y :: t else y :: insertSorted x t

/-- Ascending sort, modelling the sort inside `np.percentile`. -/
def sortQ : List ℚ → List ℚ
  | [] => []
  | x :: t => insertSorted x (sortQ t)

/-- `np.percentile(ys, q)` with the default linear interpolation: at
fractional position `h = (m-1)·q/100` of the sorted data, interpolate
between the neighbouring order statistics (exact in `ℚ`). -/
def npPercentile (ys : List ℚ) (q : ℚ) : ℚ :=
  let s := sortQ ys
  let h : ℚ := ((s.length : ℚ) - 1) * q / 100
  let i : Nat := (⌊h⌋).toNat
  let lo := s.getD i 0
  let hi := s.getD (i + 1) lo
  lo + (h - (i : ℚ)) * (hi - lo)

/-- `np.percentile(ys, 50)`, the median under linear interpolation. -/
def npMedian (ys : List ℚ) : ℚ := npPercentile ys 50

/-- `binned_plot` (source lines 7–77), calculation part.  The
percentile expansion runs first (so an out-of-range level is reported
before anything touches the data), then `n+1` bin edges are spread over
`[0.9999·min X, 1.0001·max X]`, and each bin records the requested
percentiles of the `Y` values whose `X` falls in it, or missing data
for an empty bin.  `X` and `Y` are paired positionally (the mask
`Y[(X >= lo) & (X < hi)]` of line 48 requires equal lengths; `zip`
models that pairing). -/
def binnedPlot (X Y : List ℚ) (n : Nat) (ps : List ℚ) : PlotResult :=
  match calcPercent ps with
  | none => .error .percentileOutOfRange
  | some cps =>
    match listMin? X, listMax? X with
    | some mn, some mx =>
      let edges := linspace (mn * (9999 / 10000)) (mx * (10001 / 10000)) (n + 1)
      let bins := (List.range n).map (fun i =>
        let lo := edges.getD i 0
        let hi := edges.getD (i + 1) 0
        let y := ((X.zip Y).filter (fun p => decide (lo ≤ p.1) && decide (p.1 < hi))).map Prod.snd
        if y = [] then none else some (cps.map (npPercentile y)))
      .ok bins edges
    | _, _ => .error .emptyData

/-! ## Concrete instances used by the claim theorems -/

/-- The two-cluster catalog of the spec's padding scenario: one
property column `Ngal = [3, 1]`, one galaxy field `v`. -/
def padCat : Catalog :=
  ⟨[], ⟨[ngalName], [[3], [1]]⟩,
    [⟨["v".toList], [[10, 20, 30]], 3⟩, ⟨["v".toList], [[40]], 1⟩]⟩

/-- A catalog with zero clusters (empty property table, empty galaxy
sequence) — it satisfies every data-model invariant. -/
def emptyCatalog : Catalog := ⟨[], ⟨[ngalName], []⟩, []⟩

/-- A two-cluster catalog with two property columns (`Ngal`, `mass`)
and one galaxy field, used to exercise `__getitem__`. -/
def exCat : Catalog :=
  ⟨[("name".toList, 7)], ⟨[ngalName, "mass".toList], [[3, 5], [1, 7]]⟩,
    [⟨["v".toList], [[10, 20, 30]], 3⟩, ⟨["v".toList], [[40]], 1⟩]⟩

/-- A second copy of the `exCat` shape with different values, for the
length-invariant claim. -/
def exCat6 : Catalog :=
  ⟨[], ⟨[ngalName, "mass".toList], [[3, 9], [1, 8]]⟩,
    [⟨["v".toList], [[11, 21, 31]], 3⟩, ⟨["v".toList], [[41]], 1⟩]⟩

/-- A two-cluster catalog for the boolean-selector claim. -/
def exCat10 : Catalog :=
  ⟨[], ⟨[ngalName], [[1], [2]]⟩,
    [⟨["v".toList], [[5]], 1⟩, ⟨["v".toList], [[6, 7]], 2⟩]⟩

/-- A one-cluster catalog used as the round-trip witness input. -/
def rtCat : Catalog :=
  ⟨[("z".toList, 1/2)], ⟨["mass".toList, ngalName], [[17, 2]]⟩,
    [⟨["v".toList, "r".toList], [[4, 8], [6, 9]], 2⟩]⟩

/-- Left operand of the concatenation witness. -/
def catA : Catalog :=
  ⟨[("z".toList, 1)], ⟨[ngalName], [[1]]⟩, [⟨["v".toList], [[2]], 1⟩]⟩

/-- Right operand of the concatenation witness. -/
def catB : Catalog :=
  ⟨[("z".toList, 3)], ⟨[ngalName], [[2]]⟩, [⟨["v".toList], [[4, 5]], 2⟩]⟩

/-- The record `save_npy` builds for cluster `i` (lines 96–105),
written out with the column/`Ngal` positions resolved: the property row
as `float64` scalars, then one padded vector per galaxy field of the
shared schema. -/
def recOf (c : Catalog) (i : Nat) : List NpyVal :=
  (c.prop.rows.getD i []).map NpyVal.scalar ++
    (galSchemaOf c).map (fun f =>
      NpyVal.vector (sliceWrite (List.replicate (maxNgalOf c) 0)
        ((ratTrunc ((c.prop.rows.getD i []).getD (ngalIdx c) 0)).toNat)
        (galColD (c.gal.getD i gdef) f)))

/-- The whole structured array `save_npy` writes, in resolved form. -/
def npyOf (c : Catalog) : NpyFile :=
  ⟨c.prop.cols ++ (galSchemaOf c).map (fun f => galMark ++ f),
    (List.range c.prop.rows.length).map (recOf c)⟩

instance (c : Catalog) : Decidable (WF c) := by
  unfold WF
  infer_instance

/-! ## Helper lemmas: structured-array field lookup -/

theorem getFieldD_cons_self {α : Type} (n : PyStr) (ns : List PyStr) (v : α)
    (vs : List α) (d : α) : getFieldD (n :: ns) (v :: vs) n d = v := by
  simp [getFieldD]

theorem getFieldD_cons_ne {α : Type} {n nm : PyStr} (ns : List PyStr) (v : α)
    (vs : List α) (d : α) (h : n ≠ nm) :
    getFieldD (n :: ns) (v :: vs) nm d = getFieldD ns vs nm d := by
  simp [getFieldD, h]

theorem getFieldD_append_left {α : Type} {ns ms : List PyStr} {vs ws : List α}
    {nm : PyStr} {d : α} (hl : ns.length = vs.length) (hm : nm ∈ ns) :
    getFieldD (ns ++ ms) (vs ++ ws) nm d = getFieldD ns vs nm d := by
  induction ns generalizing vs with
  | nil => cases hm
  | cons n t ih =>
    cases vs with
    | nil => simp at hl
    | cons v tv =>
      by_cases h : n = nm
      · subst h
        simp [getFieldD]
      · rw [List.cons_append, List.cons_append, getFieldD_cons_ne _ _ _ _ h,
          getFieldD_cons_ne _ _ _ _ h]
        exact ih (by simpa using hl) ((List.mem_cons.mp hm).resolve_left (fun e => h e.symm))

theorem getFieldD_append_right {α : Type} {ns ms : List PyStr} {vs ws : List α}
    {nm : PyStr} {d : α} (hl : ns.length = vs.length) (hm : nm ∉ ns) :
    getFieldD (ns ++ ms) (vs ++ ws) nm d = getFieldD ms ws nm d := by
  induction ns generalizing vs with
  | nil =>
    cases vs with
    | nil => rfl
    | cons v tv => simp at hl
  | cons n t ih =>
    cases vs with
    | nil => simp at hl
    | cons v tv =>
      have hne : n ≠ nm := fun e => hm (e ▸ List.mem_cons_self n t)
      rw [List.cons_append, List.cons_append, getFieldD_cons_ne _ _ _ _ hne]
      exact ih (by simpa using hl) (fun hx => hm (List.mem_cons_of_mem n hx))

theorem map_getFieldD {α : Type} {ns : List PyStr} {vs : List α} {d : α}
    (hnd : ns.Nodup) (hl : vs.length = ns.length) :
    ns.map (fun nm => getFieldD ns vs nm d) = vs := by
  induction ns generalizing vs with
  | nil =>
    cases vs with
    | nil => rfl
    | cons v tv => simp at hl
  | cons n t ih =>
    cases vs with
    | nil => simp at hl
    | cons v tv =>
      have hnin : n ∉ t := (List.nodup_cons.mp hnd).1
      have htnd : t.Nodup := (List.nodup_cons.mp hnd).2
      simp only [List.map_cons, getFieldD_cons_self]
      congr 1
      calc t.map (fun nm => getFieldD (n :: t) (v :: tv) nm d)
          = t.map (fun nm => getFieldD t tv nm d) := by
            apply List.map_congr_left
            intro a ha
            exact getFieldD_cons_ne _ _ _ _ (fun e => hnin (e ▸ ha))
        _ = tv := ih htnd (by simpa using hl)

theorem colIdx?_of_mem {cols : List PyStr} {nm : PyStr} (hm : nm ∈ cols) :
    ∃ k, colIdx? cols nm = some k ∧ k < cols.length := by
  induction cols with
  | nil => cases hm
  | cons c t ih =>
    by_cases h : c = nm
    · exact ⟨0, by simp [colIdx?, h], by simp⟩
    · obtain ⟨k, hk, hlt⟩ := ih ((List.mem_cons.mp hm).resolve_left (fun e => h e.symm))
      exact ⟨k + 1, by simp [colIdx?, h, hk], by simp only [List.length_cons]; omega⟩

theorem getFieldD_colIdx {α : Type} {cols : List PyStr} {vs : List α}
    {nm : PyStr} {d : α} {k : Nat} (hk : colIdx? cols nm = some k)
    (hl : vs.length = cols.length) :
    getFieldD cols vs nm d = vs.getD k d := by
  induction cols generalizing vs k with
  | nil => simp [colIdx?] at hk
  | cons c t ih =>
    cases vs with
    | nil => simp at hl
    | cons v tv =>
      by_cases h : c = nm
      · simp only [colIdx?, if_pos h] at hk
        cases hk
        subst h
        simp [getFieldD]
      · simp only [colIdx?, if_neg h, Option.map_eq_some'] at hk
        obtain ⟨k0, hk0, hkk⟩ := hk
        subst hkk
        rw [getFieldD_cons_ne _ _ _ _ h]
        simpa using ih hk0 (by simpa using hl)

theorem getD_map {α β : Type} (f : α → β) (l : List α) (i : Nat) (d : α) :
    (l.map f).getD i (f d) = f (l.getD i d) := by
  induction l generalizing i with
  | nil => simp
  | cons x t ih =>
    cases i with
    | zero => rfl
    | succ j => simpa using ih j

/-! ## Helper lemmas: `Ngal` casts and marker-prefix handling -/

theorem ratTrunc_natCast (k : Nat) : ratTrunc ((k : ℚ)) = (k : Int) := by
  have h0 : ¬ ((k : ℚ) < 0) := not_lt.mpr (by exact_mod_cast Nat.zero_le k)
  unfold ratTrunc Rat.floor
  rw [if_neg h0]
  simp

theorem galMark_length : galMark.length = 4 := rfl

theorem take_galMark_append (f : PyStr) : (galMark ++ f).take 4 = galMark :=
  List.take_left' galMark_length

theorem drop_galMark_append (f : PyStr) : (galMark ++ f).drop 4 = f :=
  List.drop_left' galMark_length

theorem isGalName_append (f : PyStr) : isGalName (galMark ++ f) = true := by
  simp [isGalName, take_galMark_append]

theorem isGalName_eq_false {nm : PyStr} (h : ¬ nm.take 4 = galMark) :
    isGalName nm = false := by
  simp [isGalName, h]

theorem galMark_append_injective : Function.Injective (fun f => galMark ++ f) :=
  fun _ _ h => List.append_cancel_left h

/-! ## The `save_npy` / `load_npy` round trip -/

theorem saveNpy_spec {c : Catalog} (h : WF c) (hne : c.gal ≠ []) :
    saveNpy c = some (npyOf c) := by
  obtain ⟨hnd, hmem, hpre, hrect, hlen, hsch, hschnd, hgrect, hgcols, hngal⟩ := h
  obtain ⟨g0, rest, hg⟩ := List.exists_cons_of_ne_nil hne
  obtain ⟨nIdx, hnIdx, hnlt⟩ := colIdx?_of_mem hmem
  have hhead : c.gal.head? = some g0 := by rw [hg]; rfl
  have hrlen : c.prop.rows.length = rest.length + 1 := by
    rw [← hlen, hg]; rfl
  obtain ⟨r0, rs, hr⟩ := List.exists_cons_of_ne_nil
    (l := c.prop.rows) (by intro e; rw [e] at hrlen; simp at hrlen)
  have hdf : dfColD c.prop nIdx =
      r0.getD nIdx 0 :: rs.map (fun r => r.getD nIdx 0) := by
    rw [dfColD, hr]; rfl
  have hmx : listMax? (dfColD c.prop nIdx) =
      some ((listMax? (rs.map (fun r => r.getD nIdx 0))).elim
        (r0.getD nIdx 0) (max (r0.getD nIdx 0))) := by
    rw [hdf]; rfl
  have hidx : ngalIdx c = nIdx := by rw [ngalIdx, hnIdx]; rfl
  have hg0 : galSchemaOf c = g0.fields := by rw [galSchemaOf, hg]; rfl
  have hmax : maxNgalOf c =
      (ratTrunc ((listMax? (rs.map (fun r => r.getD nIdx 0))).elim
        (r0.getD nIdx 0) (max (r0.getD nIdx 0)))).toNat := by
    rw [maxNgalOf, hidx, hmx]; rfl
  unfold saveNpy
  rw [hhead]
  simp only [Option.bind_eq_bind, Option.some_bind]
  rw [hnIdx]
  simp only [Option.some_bind]
  rw [hmx]
  simp only [Option.some_bind]
  rw [npyOf, hg0]
  congr 1
  refine congrArg (NpyFile.mk _) ?_
  apply List.map_congr_left
  intro i _
  rw [recOf, hg0, hidx, hmax]

theorem loadNpy_npyOf {c : Catalog} (h : WF c) (par : List (PyStr × ℚ)) :
    loadNpy (npyOf c) par = some ⟨par, c.prop, c.gal⟩ := by
  obtain ⟨hnd, hmem, hpre, hrect, hlen, hsch, hschnd, hgrect, hgcols, hngal⟩ := h
  obtain ⟨nIdx, hnIdx, hnlt⟩ := colIdx?_of_mem hmem
  have hidx : ngalIdx c = nIdx := by rw [ngalIdx, hnIdx]; rfl
  have hnames : (npyOf c).dtypeNames =
      c.prop.cols ++ (galSchemaOf c).map (fun f => galMark ++ f) := rfl
  have hrecs : (npyOf c).records = (List.range c.prop.rows.length).map (recOf c) := rfl
  have hmemN : ngalName ∈ (npyOf c).dtypeNames := by
    rw [hnames]; exact List.mem_append_left _ hmem
  obtain ⟨k, hk, hklt⟩ := colIdx?_of_mem hmemN
  have hfilterGal : (npyOf c).dtypeNames.filter isGalName =
      (galSchemaOf c).map (fun f => galMark ++ f) := by
    rw [hnames, List.filter_append]
    have h1 : c.prop.cols.filter isGalName = [] :=
      List.filter_eq_nil_iff.mpr (fun nm hm => by
        simp [isGalName_eq_false (hpre nm hm)])
    have h2 : ((galSchemaOf c).map (fun f => galMark ++ f)).filter isGalName =
        (galSchemaOf c).map (fun f => galMark ++ f) :=
      List.filter_eq_self.mpr (fun nm hm => by
        obtain ⟨f, _, rfl⟩ := List.mem_map.mp hm
        exact isGalName_append f)
    rw [h1, h2, List.nil_append]
  have hgalNames : ((npyOf c).dtypeNames.filter isGalName).map (fun nm => nm.drop 4) =
      galSchemaOf c := by
    rw [hfilterGal, List.map_map]
    calc (galSchemaOf c).map ((fun nm => List.drop 4 nm) ∘ fun f => galMark ++ f)
        = (galSchemaOf c).map id :=
          List.map_congr_left (fun f _ => drop_galMark_append f)
      _ = galSchemaOf c := List.map_id _
  have hpropNames : (npyOf c).dtypeNames.filter (fun nm => !isGalName nm) = c.prop.cols := by
    rw [hnames, List.filter_append]
    have h1 : c.prop.cols.filter (fun nm => !isGalName nm) = c.prop.cols :=
      List.filter_eq_self.mpr (fun nm hm => by simp [isGalName_eq_false (hpre nm hm)])
    have h2 : ((galSchemaOf c).map (fun f => galMark ++ f)).filter
        (fun nm => !isGalName nm) = [] :=
      List.filter_eq_nil_iff.mpr (fun nm hm => by
        obtain ⟨f, _, rfl⟩ := List.mem_map.mp hm
        simp [isGalName_append f])
    rw [h1, h2, List.append_nil]
  -- pointwise facts about record `i`
  have hrowlen : ∀ i, i < c.prop.rows.length →
      (c.prop.rows.getD i []).length = c.prop.cols.length := by
    intro i hi
    rw [List.getD_eq_getElem _ _ hi]
    exact hrect _ (List.getElem_mem hi)
  have hscal : ∀ i, i < c.prop.rows.length →
      c.prop.cols.map (fun nm =>
        asScalar (getFieldD (npyOf c).dtypeNames (recOf c i) nm (NpyVal.scalar 0))) =
      c.prop.rows.getD i [] := by
    intro i hi
    have hlm : c.prop.cols.length = ((c.prop.rows.getD i []).map NpyVal.scalar).length := by
      rw [List.length_map]; exact (hrowlen i hi).symm
    have hstep : ∀ nm ∈ c.prop.cols,
        getFieldD (npyOf c).dtypeNames (recOf c i) nm (NpyVal.scalar 0) =
        getFieldD c.prop.cols ((c.prop.rows.getD i []).map NpyVal.scalar) nm
          (NpyVal.scalar 0) := by
      intro nm hm
      rw [hnames, recOf]
      exact getFieldD_append_left hlm hm
    calc c.prop.cols.map (fun nm =>
            asScalar (getFieldD (npyOf c).dtypeNames (recOf c i) nm (NpyVal.scalar 0)))
        = c.prop.cols.map (fun nm =>
            asScalar (getFieldD c.prop.cols ((c.prop.rows.getD i []).map NpyVal.scalar) nm
              (NpyVal.scalar 0))) :=
          List.map_congr_left (fun nm hm => by rw [hstep nm hm])
      _ = (c.prop.cols.map (fun nm =>
            getFieldD c.prop.cols ((c.prop.rows.getD i []).map NpyVal.scalar) nm
              (NpyVal.scalar 0))).map asScalar := by
          rw [List.map_map]; rfl
      _ = ((c.prop.rows.getD i []).map NpyVal.scalar).map asScalar := by
          rw [map_getFieldD hnd hlm.symm]
      _ = c.prop.rows.getD i [] := by
          rw [List.map_map]
          exact (List.map_congr_left (fun x _ => rfl)).trans (List.map_id _)
  have hng : ∀ i, i < c.prop.rows.length →
      (ratTrunc (asScalar (getFieldD (npyOf c).dtypeNames (recOf c i) ngalName
        (NpyVal.scalar 0)))).toNat = (c.gal.getD i gdef).nrows := by
    intro i hi
    have hlm : c.prop.cols.length = ((c.prop.rows.getD i []).map NpyVal.scalar).length := by
      rw [List.length_map]; exact (hrowlen i hi).symm
    rw [hnames, recOf, getFieldD_append_left hlm hmem, getFieldD_colIdx hnIdx hlm.symm,
      getD_map, ← hidx]
    show (ratTrunc (asScalar (NpyVal.scalar ((c.prop.rows.getD i []).getD (ngalIdx c) 0)))).toNat
      = (c.gal.getD i gdef).nrows
    rw [show asScalar (NpyVal.scalar ((c.prop.rows.getD i []).getD (ngalIdx c) 0)) =
        (c.prop.rows.getD i []).getD (ngalIdx c) 0 from rfl,
      hngal i (by rw [hlen]; exact hi), ratTrunc_natCast, Int.toNat_natCast]
  have hcols_pt : ∀ i, i < c.prop.rows.length →
      (galSchemaOf c).map (fun fl => padTrunc (c.gal.getD i gdef).nrows
        ((asVector (getFieldD (npyOf c).dtypeNames (recOf c i) (galMark ++ fl)
          (NpyVal.scalar 0))).take (c.gal.getD i gdef).nrows)) =
      (c.gal.getD i gdef).cols := by
    intro i hi
    have higal : i < c.gal.length := by rw [hlen]; exact hi
    have hgimem : c.gal.getD i gdef ∈ c.gal := by
      rw [List.getD_eq_getElem _ _ higal]; exact List.getElem_mem higal
    have hgif : (c.gal.getD i gdef).fields = galSchemaOf c := hsch _ hgimem
    have hlm : c.prop.cols.length = ((c.prop.rows.getD i []).map NpyVal.scalar).length := by
      rw [List.length_map]; exact (hrowlen i hi).symm
    have hngi : (ratTrunc ((c.prop.rows.getD i []).getD (ngalIdx c) 0)).toNat =
        (c.gal.getD i gdef).nrows := by
      rw [hngal i higal, ratTrunc_natCast, Int.toNat_natCast]
    have hnotin : ∀ fl : PyStr, (galMark ++ fl) ∉ c.prop.cols := by
      intro fl hmm
      exact hpre _ hmm (take_galMark_append fl)
    have hstep : ∀ fl ∈ galSchemaOf c,
        getFieldD (npyOf c).dtypeNames (recOf c i) (galMark ++ fl) (NpyVal.scalar 0) =
        getFieldD ((galSchemaOf c).map (fun f => galMark ++ f))
          ((galSchemaOf c).map (fun f => NpyVal.vector
            (sliceWrite (List.replicate (maxNgalOf c) 0) (c.gal.getD i gdef).nrows
              (galColD (c.gal.getD i gdef) f))))
          (galMark ++ fl) (NpyVal.scalar 0) := by
      intro fl _
      rw [hnames, recOf, hngi]
      exact getFieldD_append_right hlm (hnotin fl)
    have hinner : (galSchemaOf c).map (fun fl =>
        getFieldD ((galSchemaOf c).map (fun f => galMark ++ f))
          ((galSchemaOf c).map (fun f => NpyVal.vector
            (sliceWrite (List.replicate (maxNgalOf c) 0) (c.gal.getD i gdef).nrows
              (galColD (c.gal.getD i gdef) f))))
          (galMark ++ fl) (NpyVal.scalar 0)) =
        (galSchemaOf c).map (fun f => NpyVal.vector
          (sliceWrite (List.replicate (maxNgalOf c) 0) (c.gal.getD i gdef).nrows
            (galColD (c.gal.getD i gdef) f))) := by
      have hmk : (galSchemaOf c).map (fun fl =>
          getFieldD ((galSchemaOf c).map (fun f => galMark ++ f))
            ((galSchemaOf c).map (fun f => NpyVal.vector
              (sliceWrite (List.replicate (maxNgalOf c) 0) (c.gal.getD i gdef).nrows
                (galColD (c.gal.getD i gdef) f))))
            (galMark ++ fl) (NpyVal.scalar 0)) =
          ((galSchemaOf c).map (fun f => galMark ++ f)).map (fun nm =>
            getFieldD ((galSchemaOf c).map (fun f => galMark ++ f))
              ((galSchemaOf c).map (fun f => NpyVal.vector
                (sliceWrite (List.replicate (maxNgalOf c) 0) (c.gal.getD i gdef).nrows
                  (galColD (c.gal.getD i gdef) f))))
              nm (NpyVal.scalar 0)) := by
        rw [List.map_map]; rfl
      rw [hmk]
      exact map_getFieldD (List.Nodup.map galMark_append_injective hschnd)
        (by rw [List.length_map, List.length_map])
    calc (galSchemaOf c).map (fun fl => padTrunc (c.gal.getD i gdef).nrows
          ((asVector (getFieldD (npyOf c).dtypeNames (recOf c i) (galMark ++ fl)
            (NpyVal.scalar 0))).take (c.gal.getD i gdef).nrows))
        = (galSchemaOf c).map (fun fl => padTrunc (c.gal.getD i gdef).nrows
            ((asVector (getFieldD ((galSchemaOf c).map (fun f => galMark ++ f))
              ((galSchemaOf c).map (fun f => NpyVal.vector
                (sliceWrite (List.replicate (maxNgalOf c) 0) (c.gal.getD i gdef).nrows
                  (galColD (c.gal.getD i gdef) f))))
              (galMark ++ fl) (NpyVal.scalar 0))).take (c.gal.getD i gdef).nrows)) :=
          List.map_congr_left (fun fl hfl => by rw [hstep fl hfl])
      _ = ((galSchemaOf c).map (fun fl =>
            getFieldD ((galSchemaOf c).map (fun f => galMark ++ f))
              ((galSchemaOf c).map (fun f => NpyVal.vector
                (sliceWrite (List.replicate (maxNgalOf c) 0) (c.gal.getD i gdef).nrows
                  (galColD (c.gal.getD i gdef) f))))
              (galMark ++ fl) (NpyVal.scalar 0))).map (fun v =>
            padTrunc (c.gal.getD i gdef).nrows
              ((asVector v).take (c.gal.getD i gdef).nrows)) := by
          rw [List.map_map]; rfl
      _ = ((galSchemaOf c).map (fun f => NpyVal.vector
            (sliceWrite (List.replicate (maxNgalOf c) 0) (c.gal.getD i gdef).nrows
              (galColD (c.gal.getD i gdef) f)))).map (fun v =>
            padTrunc (c.gal.getD i gdef).nrows
              ((asVector v).take (c.gal.getD i gdef).nrows)) := by rw [hinner]
      _ = ((galSchemaOf c).map (galColD (c.gal.getD i gdef))).map (fun col =>
            padTrunc (c.gal.getD i gdef).nrows
              ((asVector (NpyVal.vector
                (sliceWrite (List.replicate (maxNgalOf c) 0) (c.gal.getD i gdef).nrows
                  col))).take (c.gal.getD i gdef).nrows)) := by
          rw [List.map_map, List.map_map]; rfl
      _ = (c.gal.getD i gdef).cols.map (fun col =>
            padTrunc (c.gal.getD i gdef).nrows
              ((asVector (NpyVal.vector
                (sliceWrite (List.replicate (maxNgalOf c) 0) (c.gal.getD i gdef).nrows
                  col))).take (c.gal.getD i gdef).nrows)) := by
          have hmapcols : (galSchemaOf c).map (galColD (c.gal.getD i gdef)) =
              (c.gal.getD i gdef).cols := by
            rw [← hgif]
            exact map_getFieldD (by rw [hgif]; exact hschnd) (hgrect _ hgimem)
          rw [hmapcols]
      _ = (c.gal.getD i gdef).cols := by
          refine (List.map_congr_left ?_).trans (List.map_id _)
          intro col hcol
          have hcl : col.length = (c.gal.getD i gdef).nrows := hgcols _ hgimem col hcol
          show padTrunc (c.gal.getD i gdef).nrows
            ((sliceWrite (List.replicate (maxNgalOf c) 0) (c.gal.getD i gdef).nrows
              col).take (c.gal.getD i gdef).nrows) = id col
          have htake : col.take (c.gal.getD i gdef).nrows = col := by
            rw [← hcl, List.take_length]
          rw [sliceWrite, htake, List.take_left' hcl, padTrunc, htake, hcl]
          simp
  -- assemble
  unfold loadNpy
  rw [hk]
  simp only [Option.bind_eq_bind, Option.some_bind, Option.pure_def]
  rw [hrecs, hpropNames, hgalNames]
  have hprop : ((List.range c.prop.rows.length).map (recOf c)).map (fun r =>
      c.prop.cols.map (fun nm =>
        asScalar (getFieldD (npyOf c).dtypeNames r nm (NpyVal.scalar 0)))) =
      c.prop.rows := by
    rw [List.map_map]
    apply List.ext_getElem
    · rw [List.length_map, List.length_range]
    · intro j h1 h2
      rw [List.getElem_map, List.getElem_range]
      have hj : j < c.prop.rows.length := by
        simpa [List.length_map, List.length_range] using h1
      show c.prop.cols.map (fun nm =>
        asScalar (getFieldD (npyOf c).dtypeNames (recOf c j) nm (NpyVal.scalar 0))) =
        c.prop.rows[j]
      rw [hscal j hj, List.getD_eq_getElem _ _ hj]
  have hgals : ((List.range c.prop.rows.length).map (recOf c)).map (fun r =>
      GalTable.mk (galSchemaOf c)
        ((galSchemaOf c).map (fun fl =>
          padTrunc ((ratTrunc (asScalar (getFieldD (npyOf c).dtypeNames r ngalName
              (NpyVal.scalar 0)))).toNat)
            ((asVector (getFieldD (npyOf c).dtypeNames r (galMark ++ fl)
              (NpyVal.scalar 0))).take
              ((ratTrunc (asScalar (getFieldD (npyOf c).dtypeNames r ngalName
                (NpyVal.scalar 0)))).toNat))))
        ((ratTrunc (asScalar (getFieldD (npyOf c).dtypeNames r ngalName
          (NpyVal.scalar 0)))).toNat)) =
      c.gal := by
    rw [List.map_map]
    apply List.ext_getElem
    · rw [List.length_map, List.length_range, hlen]
    · intro j h1 h2
      rw [List.getElem_map, List.getElem_range]
      have hj : j < c.prop.rows.length := by
        simpa [List.length_map, List.length_range] using h1
      have hjg : j < c.gal.length := by rw [hlen]; exact hj
      show GalTable.mk (galSchemaOf c) _ _ = c.gal[j]
      rw [hng j hj, hcols_pt j hj, ← List.getD_eq_getElem c.gal gdef hjg]
      have hgimem : c.gal.getD j gdef ∈ c.gal := by
        rw [List.getD_eq_getElem _ _ hjg]; exact List.getElem_mem hjg
      rw [← hsch _ hgimem]
  rw [hprop, hgals]

/-- Every record of `save_npy`, under the invariants: the property row
as scalars, then each galaxy column followed by its zero padding up to
the fixed width. -/
theorem recOf_padded {c : Catalog} (h : WF c) {i : Nat} (hi : i < c.prop.rows.length) :
    recOf c i = (c.prop.rows.getD i []).map NpyVal.scalar ++
      (c.gal.getD i gdef).cols.map (fun col =>
        NpyVal.vector (col ++
          List.replicate (maxNgalOf c - (c.gal.getD i gdef).nrows) 0)) := by
  obtain ⟨hnd, hmem, hpre, hrect, hlen, hsch, hschnd, hgrect, hgcols, hngal⟩ := h
  have higal : i < c.gal.length := by rw [hlen]; exact hi
  have hgimem : c.gal.getD i gdef ∈ c.gal := by
    rw [List.getD_eq_getElem _ _ higal]; exact List.getElem_mem higal
  have hgif : (c.gal.getD i gdef).fields = galSchemaOf c := hsch _ hgimem
  have hngi : (ratTrunc ((c.prop.rows.getD i []).getD (ngalIdx c) 0)).toNat =
      (c.gal.getD i gdef).nrows := by
    rw [hngal i higal, ratTrunc_natCast, Int.toNat_natCast]
  rw [recOf, hngi]
  congr 1
  have hmapcols : (galSchemaOf c).map (galColD (c.gal.getD i gdef)) =
      (c.gal.getD i gdef).cols := by
    rw [← hgif]
    exact map_getFieldD (by rw [hgif]; exact hschnd) (hgrect _ hgimem)
  calc (galSchemaOf c).map (fun f => NpyVal.vector
        (sliceWrite (List.replicate (maxNgalOf c) 0) (c.gal.getD i gdef).nrows
          (galColD (c.gal.getD i gdef) f)))
      = ((galSchemaOf c).map (galColD (c.gal.getD i gdef))).map (fun col =>
          NpyVal.vector
            (sliceWrite (List.replicate (maxNgalOf c) 0) (c.gal.getD i gdef).nrows col)) := by
        rw [List.map_map]; rfl
    _ = (c.gal.getD i gdef).cols.map (fun col => NpyVal.vector
          (sliceWrite (List.replicate (maxNgalOf c) 0) (c.gal.getD i gdef).nrows col)) := by
        rw [hmapcols]
    _ = (c.gal.getD i gdef).cols.map (fun col =>
          NpyVal.vector (col ++
            List.replicate (maxNgalOf c - (c.gal.getD i gdef).nrows) 0)) :=
        List.map_congr_left (fun col hcol => by
          have hcl : col.length = (c.gal.getD i gdef).nrows := hgcols _ hgimem col hcol
          rw [sliceWrite, ← hcl, List.take_length, List.drop_replicate])

/-! ## Helper lemmas: the modelled pickle stream -/

theorem decListAux_enc {α : Type} (enc : α → List Tok)
    (dec : List Tok → Option (α × List Tok))
    (hdec : ∀ a r, dec (enc a ++ r) = some (a, r)) :
    ∀ (xs : List α) (r : List Tok),
      decListAux dec xs.length ((xs.map enc).flatten ++ r) = some (xs, r) := by
  intro xs
  induction xs with
  | nil => intro r; rfl
  | cons a t ih =>
    intro r
    show decListAux dec (t.length + 1) ((enc a :: t.map enc).flatten ++ r) = some (a :: t, r)
    rw [List.flatten_cons, List.append_assoc]
    simp only [decListAux, hdec a ((t.map enc).flatten ++ r), Option.bind_eq_bind,
      Option.some_bind, ih r]
    rfl

theorem decList_enc {α : Type} (enc : α → List Tok)
    (dec : List Tok → Option (α × List Tok))
    (hdec : ∀ a r, dec (enc a ++ r) = some (a, r)) (xs : List α) (r : List Tok) :
    decList dec (encList enc xs ++ r) = some (xs, r) := by
  show decList dec ((Tok.tn xs.length :: (xs.map enc).flatten) ++ r) = some (xs, r)
  simp only [decList, List.cons_append, decN, Option.bind_eq_bind, Option.some_bind]
  exact decListAux_enc enc dec hdec xs r

theorem decQ_enc (x : ℚ) (r : List Tok) : decQ (encQ x ++ r) = some (x, r) := rfl

theorem decS_enc (s : PyStr) (r : List Tok) : decS (encS s ++ r) = some (s, r) := rfl

theorem decN_enc (k : Nat) (r : List Tok) : decN (encN k ++ r) = some (k, r) := rfl

theorem decPairSQ_enc (p : PyStr × ℚ) (r : List Tok) :
    decPairSQ (encPairSQ p ++ r) = some (p, r) := by
  show decPairSQ ((encS p.1 ++ encQ p.2) ++ r) = some (p, r)
  rw [List.append_assoc]
  simp only [decPairSQ, decS_enc, Option.bind_eq_bind, Option.some_bind, decQ_enc]
  rfl

theorem decDF_enc (d : DataFrame) (r : List Tok) :
    decDF (encDF d ++ r) = some (d, r) := by
  show decDF ((encList encS d.cols ++ encList (encList encQ) d.rows) ++ r) = some (d, r)
  rw [List.append_assoc]
  simp only [decDF, decList_enc encS decS decS_enc, Option.bind_eq_bind, Option.some_bind,
    decList_enc (encList encQ) (decList decQ) (decList_enc encQ decQ decQ_enc)]
  rfl

theorem decGal_enc (g : GalTable) (r : List Tok) :
    decGal (encGal g ++ r) = some (g, r) := by
  show decGal ((encList encS g.fields ++ encList (encList encQ) g.cols ++ encN g.nrows) ++ r)
    = some (g, r)
  rw [List.append_assoc, List.append_assoc]
  simp only [decGal, decList_enc encS decS decS_enc, Option.bind_eq_bind, Option.some_bind,
    decList_enc (encList encQ) (decList decQ) (decList_enc encQ decQ decQ_enc), decN_enc]
  rfl

theorem decCat_enc (c : Catalog) (r : List Tok) :
    decCat (encCat c ++ r) = some (c, r) := by
  show decCat ((encList encPairSQ c.par ++ encDF c.prop ++ encList encGal c.gal) ++ r)
    = some (c, r)
  rw [List.append_assoc, List.append_assoc]
  simp only [decCat, decList_enc encPairSQ decPairSQ decPairSQ_enc, Option.bind_eq_bind,
    Option.some_bind, decDF_enc, decList_enc encGal decGal decGal_enc]
  rfl

/-! ## Helper lemmas: column extrema and the percentile expansion -/

theorem listMax?_spec : ∀ {l : List ℚ} {m : ℚ}, listMax? l = some m →
    m ∈ l ∧ ∀ x ∈ l, x ≤ m := by
  intro l
  induction l with
  | nil => intro m h; cases h
  | cons a t ih =>
    intro m h
    rw [listMax?] at h
    cases ht : listMax? t with
    | none =>
      rw [ht] at h
      have hm : m = a := by cases h; rfl
      rw [hm]
      have htn : t = [] := by
        cases t with
        | nil => rfl
        | cons b u => rw [listMax?] at ht; cases ht
      subst htn
      refine ⟨by simp, ?_⟩
      intro x hx
      have hxa : x = a := by simpa using hx
      exact le_of_eq hxa
    | some mt =>
      rw [ht] at h
      have hm : m = max a mt := by cases h; rfl
      subst hm
      obtain ⟨hmem, hle⟩ := ih ht
      constructor
      · rcases max_choice a mt with he | he
        · rw [he]; exact List.mem_cons_self a t
        · rw [he]; exact List.mem_cons_of_mem a hmem
      · intro x hx
        cases List.mem_cons.mp hx with
        | inl he => rw [he]; exact le_max_left a mt
        | inr hxt => exact le_trans (hle x hxt) (le_max_right a mt)

theorem listMin?_spec : ∀ {l : List ℚ} {m : ℚ}, listMin? l = some m →
    m ∈ l ∧ ∀ x ∈ l, m ≤ x := by
  intro l
  induction l with
  | nil => intro m h; cases h
  | cons a t ih =>
    intro m h
    rw [listMin?] at h
    cases ht : listMin? t with
    | none =>
      rw [ht] at h
      have hm : m = a := by cases h; rfl
      rw [hm]
      have htn : t = [] := by
        cases t with
        | nil => rfl
        | cons b u => rw [listMin?] at ht; cases ht
      subst htn
      refine ⟨by simp, ?_⟩
      intro x hx
      have hxa : x = a := by simpa using hx
      exact le_of_eq hxa.symm
    | some mt =>
      rw [ht] at h
      have hm : m = min a mt := by cases h; rfl
      subst hm
      obtain ⟨hmem, hle⟩ := ih ht
      constructor
      · rcases min_choice a mt with he | he
        · rw [he]; exact List.mem_cons_self a t
        · rw [he]; exact List.mem_cons_of_mem a hmem
      · intro x hx
        cases List.mem_cons.mp hx with
        | inl he => rw [he]; exact min_le_left a mt
        | inr hxt => exact le_trans (min_le_right a mt) (hle x hxt)

theorem calcPercent_none_iff (ps : List ℚ) :
    calcPercent ps = none ↔ ∃ p ∈ ps, 50 < p := by
  induction ps with
  | nil => simp [calcPercent]
  | cons p t ih =>
    rw [calcPercent]
    by_cases h0 : p = 0
    · rw [if_pos h0]
      simp only [Option.map_eq_none', ih, List.mem_cons]
      constructor
      · rintro ⟨q, hq, h50⟩
        exact ⟨q, Or.inr hq, h50⟩
      · rintro ⟨q, hq | hq, h50⟩
        · rw [hq, h0] at h50
          exact absurd h50 (by norm_num)
        · exact ⟨q, hq, h50⟩
    · by_cases h1 : p ≤ 50
      · rw [if_neg h0, if_pos h1]
        simp only [Option.map_eq_none', ih, List.mem_cons]
        constructor
        · rintro ⟨q, hq, h50⟩
          exact ⟨q, Or.inr hq, h50⟩
        · rintro ⟨q, hq | hq, h50⟩
          · rw [hq] at h50
            exact absurd h50 (not_lt.mpr h1)
          · exact ⟨q, hq, h50⟩
      · rw [if_neg h0, if_neg h1]
        simp only [true_iff]
        exact ⟨p, List.mem_cons_self p t, lt_of_not_le h1⟩

/-! ## Claim theorems -/

/-- C1 (amended: nonempty catalogs).  For every Catalog with at least
one cluster that satisfies the data-model invariants, encoding with
`save_npy` followed by decoding with `load_npy` reproduces `properties`
and `members` exactly (the forced `float64` cast of the property
columns is value-preserving), while `metadata` is never read back from
the file: it is set from the caller-supplied mapping, which the source
defaults to the empty mapping.  (The empty catalog is excluded: see the
counterexample.) -/
theorem c1_npy_roundtrip (c : Catalog) (par : List (PyStr × ℚ))
    (h : WF c) (hne : c.gal ≠ []) :
    ∃ F, saveNpy c = some F ∧
      loadNpy F par = some ⟨par, c.prop, c.gal⟩ ∧
      loadNpy F [] = some ⟨[], c.prop, c.gal⟩ :=
  ⟨npyOf c, saveNpy_spec h hne, loadNpy_npyOf h par, loadNpy_npyOf h []⟩

/-- C1 witness: the round trip at a concrete one-cluster catalog. -/
theorem c1_npy_roundtrip_witness :
    WF rtCat ∧ rtCat.gal ≠ [] ∧
      ∃ F, saveNpy rtCat = some F ∧
        loadNpy F [("note".toList, 4)] =
          some ⟨[("note".toList, 4)], rtCat.prop, rtCat.gal⟩ ∧
        loadNpy F [] = some ⟨[], rtCat.prop, rtCat.gal⟩ :=
  ⟨by decide, by decide, c1_npy_roundtrip rtCat [("note".toList, 4)] (by decide) (by decide)⟩

/-- C1 counterexample: the catalog with zero clusters satisfies every
data-model invariant, yet `save_npy` fails on it — line 93 evaluates
`self.gal[0]`, an `IndexError` on an empty galaxy sequence — so the
claimed round trip does not exist for it.  The claim as frozen
quantifies over every invariant-satisfying catalog, hence fails here. -/
theorem c1_empty_catalog_counterexample :
    WF emptyCatalog ∧ saveNpy emptyCatalog = none :=
  ⟨by decide, rfl⟩

/-- C2.  `save_npy` pads every galaxy vector field to the fixed width
`max_ngal`: record `i` holds the property row as scalars followed, for
each galaxy column, by that cluster's `Ngal i` true values and then the
zero fill; `load_npy` discards exactly the slots beyond `Ngal i`,
rebuilding every member table at its true length with the padding never
materialized. -/
theorem c2_padding (c : Catalog) (h : WF c) (hne : c.gal ≠ []) :
    ∃ F, saveNpy c = some F ∧
      F.records.length = c.prop.rows.length ∧
      (∀ i, i < c.prop.rows.length →
        F.records.getD i [] =
          (c.prop.rows.getD i []).map NpyVal.scalar ++
            (c.gal.getD i gdef).cols.map (fun col =>
              NpyVal.vector (col ++
                List.replicate (maxNgalOf c - (c.gal.getD i gdef).nrows) 0))) ∧
      ∀ par, loadNpy F par = some ⟨par, c.prop, c.gal⟩ := by
  refine ⟨npyOf c, saveNpy_spec h hne, ?_, ?_, fun par => loadNpy_npyOf h par⟩
  · show ((List.range c.prop.rows.length).map (recOf c)).length = c.prop.rows.length
    rw [List.length_map, List.length_range]
  · intro i hi
    have hrec : (npyOf c).records.getD i [] = recOf c i := by
      show ((List.range c.prop.rows.length).map (recOf c)).getD i [] = recOf c i
      have hlt : i < ((List.range c.prop.rows.length).map (recOf c)).length := by
        rw [List.length_map, List.length_range]; exact hi
      rw [List.getD_eq_getElem _ _ hlt, List.getElem_map, List.getElem_range]
    rw [hrec, recOf_padded h hi]

/-- C2 witness: the spec's concrete scenario — 2 clusters,
`Ngal = [3, 1]`, one galaxy field `v`; the encoded records carry
`gal_v` vectors `[10, 20, 30]` and `[40, 0, 0]`, and decoding rebuilds
members of lengths 3 and 1. -/
theorem c2_padding_witness :
    WF padCat ∧ padCat.gal ≠ [] ∧
      saveNpy padCat = some ⟨[ngalName, galMark ++ "v".toList],
        [[NpyVal.scalar 3, NpyVal.vector [10, 20, 30]],
         [NpyVal.scalar 1, NpyVal.vector [40, 0, 0]]]⟩ ∧
      ∃ F, saveNpy padCat = some F ∧
        F.records.length = padCat.prop.rows.length ∧
        (∀ i, i < padCat.prop.rows.length →
          F.records.getD i [] =
            (padCat.prop.rows.getD i []).map NpyVal.scalar ++
              (padCat.gal.getD i gdef).cols.map (fun col =>
                NpyVal.vector (col ++
                  List.replicate (maxNgalOf padCat - (padCat.gal.getD i gdef).nrows) 0))) ∧
        ∀ par, loadNpy F par = some ⟨par, padCat.prop, padCat.gal⟩ :=
  ⟨by decide, by decide, by decide, c2_padding padCat (by decide) (by decide)⟩

/-- C3 (failing input).  `__add__` combines the galaxy sequences with
`np.append(self.gal, catalog.gal)`, which ravels each operand.  For the
two single-cluster catalogs `catA` (1 galaxy) and `catB` (2 galaxies),
each side is a one-table sequence, so `asanyarray` stacks it 2-d and
`ravel` flattens it: the sum's galaxy part is a flat array of the 3
single-galaxy records `[2]`, `[4]`, `[5]` — not `catA`'s table sequence
followed by `catB`'s — even though the metadata is the left operand's
and the property table has the two appended rows the claim describes.
The member part no longer pairs with the property rows
(`len(gal) = 3 ≠ 2 = len(prop)`), violating the per-row correspondence
the claim states and the class docstring's own invariant
`len(gal)==len(prop)`. -/
theorem c3_concat_flattening :
    (addCat catA catB).par = catA.par ∧
    (addCat catA catB).prop.cols = catA.prop.cols ∧
    (addCat catA catB).prop.rows = catA.prop.rows ++ catB.prop.rows ∧
    (addCat catA catB).gal =
      [GalElem.row [2], GalElem.row [4], GalElem.row [5]] ∧
    (addCat catA catB).gal ≠ (catA.gal ++ catB.gal).map GalElem.table ∧
    (addCat catA catB).gal.length ≠ (addCat catA catB).prop.rows.length := by
  decide

/-- C4 (failing input).  On a 2-cluster catalog, the single-integer
selector `0` does not produce a Catalog containing the selected cluster:
`prop.iloc[0]` is a pandas Series of the row's values (its index
renumbered over the former column positions by `reset_index`), and
`gal[0]` is the bare galaxy table, so the constructed object is the
degenerate form, not the one-row sub-catalog the claim describes. -/
theorem c4_int_selector_degenerate :
    getitem exCat (.int 0) =
      .ok (.degenerate exCat.par [3, 5] ⟨["v".toList], [[10, 20, 30]], 3⟩) ∧
    ∀ d : Catalog, getitem exCat (.int 0) ≠ .ok (.catalog d) := by
  have hval : getitem exCat (.int 0) =
      .ok (.degenerate exCat.par [3, 5] ⟨["v".toList], [[10, 20, 30]], 3⟩) := by decide
  refine ⟨hval, fun d hd => ?_⟩
  rw [hval] at hd
  exact GetResult.noConfusion (PyResult.ok.inj hd)

/-- C5.  An unsupported selector type (a string) fails with the
unknown-key-type error carrying the received type, for every catalog
and every string; an out-of-range integer selector instead fails with
the positional indexer's out-of-bounds error, which is not the
unknown-key-type error.  No mutation is modelled because the source
assigns to no attribute on any of these paths. -/
theorem c5_bad_selectors (c : Catalog) (s : String) (i : Int)
    (hi : (c.prop.rows.length : Int) ≤ i ∨ i < -(c.prop.rows.length : Int)) :
    getitem c (.str s) = .error (.unknownKeyType "<class str>") ∧
    getitem c (.int i) = .error .outOfBounds ∧
    ∀ t, getitem c (.int i) ≠ .error (.unknownKeyType t) := by
  have hnone : pyIdx c.prop.rows.length i = none := by
    have h1 : ¬ (0 ≤ i ∧ i < (c.prop.rows.length : Int)) := by omega
    have h2 : ¬ (-(c.prop.rows.length : Int) ≤ i ∧ i < 0) := by omega
    rw [pyIdx, if_neg h1, if_neg h2]
  have hout : getitem c (.int i) = .error .outOfBounds := by
    show (match pyIdx c.prop.rows.length i with
      | some j => PyResult.ok (.degenerate c.par (c.prop.rows.getD j []) (c.gal.getD j gdef))
      | none => PyResult.error .outOfBounds) = .error .outOfBounds
    rw [hnone]
  refine ⟨rfl, hout, fun t ht => ?_⟩
  rw [hout] at ht
  exact PyErr.noConfusion (PyResult.error.inj ht)

/-- C5 witness: selector `"a"` and the out-of-range selector `5` on the
concrete 2-cluster catalog. -/
theorem c5_bad_selectors_witness :
    (((exCat.prop.rows.length : Int) ≤ 5 ∨ (5 : Int) < -(exCat.prop.rows.length : Int))) ∧
    (getitem exCat (.str "a") = .error (.unknownKeyType "<class str>") ∧
     getitem exCat (.int 5) = .error .outOfBounds ∧
     ∀ t, getitem exCat (.int 5) ≠ .error (.unknownKeyType t)) :=
  ⟨by decide, c5_bad_selectors exCat "a" 5 (by decide)⟩

/-- C6 (failing input).  After the single-integer indexing operation
`C[0]` on a 2-cluster catalog with two property columns and
`Ngal[0] = 3`, the resulting object violates
`len(C) == len(C.properties) == len(C.members)`: its property part is
the selected row as a value-series of length 2 (the column count) while
its member part is the bare galaxy table with 3 rows. -/
theorem c6_len_invariant_broken :
    getitem exCat6 (.int 0) =
      .ok (.degenerate exCat6.par [3, 9] ⟨["v".toList], [[11, 21, 31]], 3⟩) ∧
    ([3, 9] : List ℚ).length ≠ (⟨["v".toList], [[11, 21, 31]], 3⟩ : GalTable).nrows :=
  ⟨by decide, by decide⟩

/-- C7.  Saving a Catalog to the opaque object format and loading the
blob back restores an equal Catalog — every metadata entry, column
name, row, and per-cluster galaxy sub-table — into whatever instance
`load` is called on, replacing its three attributes; the loaded result
is determined by the blob alone. -/
theorem c7_pickle_roundtrip (c d : Catalog) :
    Catalog.load d (Catalog.save c) = some c := by
  rw [Catalog.load, Catalog.save,
    show encCat c = encCat c ++ [] from (List.append_nil _).symm, decCat_enc]
  rfl

/-- C10 (amended).  A boolean selector passes the `isinstance` dispatch
(`bool` being a subclass of `int`), so it never raises the
unknown-key-type error; but the positional indexer then rejects the
boolean with its own non-integer-key error instead of treating it as
the integer 0 or 1. -/
theorem c10_bool_key (c : Catalog) (b : Bool) :
    getitem c (.bool b) = .error .nonIntegerKey ∧
    ∀ t, getitem c (.bool b) ≠ .error (.unknownKeyType t) := by
  refine ⟨rfl, fun t ht => ?_⟩
  rw [show getitem c (.bool b) = .error .nonIntegerKey from rfl] at ht
  exact PyErr.noConfusion (PyResult.error.inj ht)

/-- C10 counterexample: on a concrete 2-cluster catalog, `C[True]` is
not processed as the integer index 1 — it errors while `C[1]`
succeeds — refuting the claim's "accepted and processed as the integer
indices 1 and 0". -/
theorem c10_bool_counterexample :
    getitem exCat10 (.bool true) = .error .nonIntegerKey ∧
    getitem exCat10 (.bool true) ≠ getitem exCat10 (.int 1) :=
  ⟨rfl, by decide⟩

/-- C8 (amended: nonnegative `X` with a positive maximum).  With one
bin and the median-only percentile list, `binned_plot` returns exactly
one bin whose single entry is the median of all the `Y` values: the
widened edge range `[0.9999·min X, 1.0001·max X)` captures every data
point when `X` is nonnegative with a positive maximum, so the single
bin spans the whole range.  (For data with a negative minimum the
widening excludes the minimum: see the counterexample.) -/
theorem c8_single_bin_median (X Y : List ℚ) (hlen : X.length = Y.length)
    (hX : X ≠ []) (hpos : ∀ x ∈ X, 0 ≤ x) (hmaxpos : ∃ x ∈ X, 0 < x) :
    ∃ edges, binnedPlot X Y 1 [0] = .ok [some [npMedian Y]] edges := by
  obtain ⟨x0, xt, hx⟩ := List.exists_cons_of_ne_nil hX
  obtain ⟨mn, hmn⟩ : ∃ mn, listMin? X = some mn := ⟨_, by rw [hx, listMin?]⟩
  obtain ⟨mx, hmx⟩ : ∃ mx, listMax? X = some mx := ⟨_, by rw [hx, listMax?]⟩
  obtain ⟨hmnmem, hmnle⟩ := listMin?_spec hmn
  obtain ⟨hmxmem, hmxle⟩ := listMax?_spec hmx
  have hmn0 : 0 ≤ mn := hpos mn hmnmem
  have hmx0 : 0 < mx := by
    obtain ⟨x, hxm, hx0⟩ := hmaxpos
    exact lt_of_lt_of_le hx0 (hmxle x hxm)
  have hY : Y ≠ [] := by
    intro he
    rw [he] at hlen
    exact hX (List.length_eq_zero.mp hlen)
  have hedges : linspace (mn * (9999 / 10000)) (mx * (10001 / 10000)) (1 + 1) =
      [mn * (9999 / 10000), mx * (10001 / 10000)] := by
    rw [linspace, show List.range (1 + 1) = [0, 1] from rfl]
    simp only [List.map_cons, List.map_nil, List.cons.injEq, and_true]
    constructor
    · push_cast
      ring
    · push_cast
      ring
  have hfilter : (X.zip Y).filter (fun p =>
      decide (mn * (9999 / 10000) ≤ p.1) && decide (p.1 < mx * (10001 / 10000))) =
      X.zip Y := by
    apply List.filter_eq_self.mpr
    intro p hp
    rcases p with ⟨a, b⟩
    have hpX : a ∈ X := (List.of_mem_zip hp).1
    simp only [Bool.and_eq_true, decide_eq_true_eq]
    constructor
    · calc mn * (9999 / 10000) ≤ mn := by nlinarith
        _ ≤ a := hmnle _ hpX
    · calc a ≤ mx := hmxle _ hpX
        _ < mx * (10001 / 10000) := by nlinarith
  have hmap : (X.zip Y).map Prod.snd = Y := List.map_snd_zip X Y (le_of_eq hlen.symm)
  refine ⟨[mn * (9999 / 10000), mx * (10001 / 10000)], ?_⟩
  unfold binnedPlot
  rw [show calcPercent [0] = some [50] from rfl, hmn, hmx]
  simp only []
  rw [hedges, show List.range 1 = [0] from rfl]
  simp only [List.map_cons, List.map_nil, List.getD_cons_zero, List.getD_cons_succ]
  rw [hfilter, hmap, if_neg hY]
  rfl

/-- C8 witness: on `X = [1, 2]`, `Y = [10, 20]`, the single bin's
median entry is the median of all of `Y`. -/
theorem c8_single_bin_median_witness :
    (([1, 2] : List ℚ).length = ([10, 20] : List ℚ).length) ∧
    ∃ edges, binnedPlot [1, 2] [10, 20] 1 [0] = .ok [some [npMedian [10, 20]]] edges :=
  ⟨by decide, c8_single_bin_median [1, 2] [10, 20] (by decide) (by decide) (by decide)
    (by decide)⟩

/-- C8 counterexample: on `X = [-1, 1]`, `Y = [1, 2]`, the widened
left edge `0.9999 · (-1) = -0.9999` lies above the minimum, so the
point with `X = -1` falls outside the single bin: the bin records the
median `2` of `[2]` alone, not the median `3/2` of all of `Y`. -/
theorem c8_negative_x_counterexample :
    binnedPlot [-1, 1] [1, 2] 1 [0] =
      .ok [some [2]] [-(9999 / 10000), 10001 / 10000] ∧
    npMedian [1, 2] = 3 / 2 ∧ (2 : ℚ) ≠ 3 / 2 := by
  refine ⟨?_, by norm_num [npMedian, npPercentile, sortQ, insertSorted], by norm_num⟩
  have hmn : listMin? [-1, 1] = some (-1) := by
    rw [show listMin? [-1, 1] = some ((listMin? [1]).elim (-1) (min (-1))) from rfl,
      show listMin? [1] = some 1 from rfl]
    simp only [Option.elim]
    rw [min_eq_left (by norm_num)]
  have hmx : listMax? [-1, 1] = some 1 := by
    rw [show listMax? [-1, 1] = some ((listMax? [1]).elim (-1) (max (-1))) from rfl,
      show listMax? [1] = some 1 from rfl]
    simp only [Option.elim]
    rw [max_eq_right (by norm_num)]
  have hedges : linspace ((-1) * (9999 / 10000)) (1 * (10001 / 10000)) (1 + 1) =
      [-(9999 / 10000), 10001 / 10000] := by
    rw [linspace, show List.range (1 + 1) = [0, 1] from rfl]
    simp only [List.map_cons, List.map_nil, List.cons.injEq, and_true]
    constructor
    · push_cast
      ring
    · push_cast
      ring
  have hfil : (([-1, 1] : List ℚ).zip ([1, 2] : List ℚ)).filter (fun p =>
      decide (-(9999 / 10000) ≤ p.1) && decide (p.1 < 10001 / 10000)) =
      [((1 : ℚ), (2 : ℚ))] := by
    norm_num [List.zip, List.zipWith, List.filter_cons, List.filter_nil,
      Bool.and_eq_true, decide_eq_true_eq]
  have hnp : npPercentile [2] 50 = 2 := by
    norm_num [npPercentile, sortQ, insertSorted]
  unfold binnedPlot
  rw [show calcPercent [0] = some [50] from rfl, hmn, hmx]
  simp only []
  rw [hedges, show List.range 1 = [0] from rfl]
  simp only [List.map_cons, List.map_nil, List.getD_cons_zero, List.getD_cons_succ]
  rw [hfil]
  simp only [List.map_cons, List.map_nil]
  rw [if_neg (by simp : ¬([(2 : ℚ)] = [])), hnp]

/-- C9.  `binned_plot` fails with the percentile-out-of-range error
exactly when some requested percentile level exceeds 50; any list of
levels all at most 50 (with 0 expanded to the median level) passes the
gate, which runs before anything touches the data. -/
theorem c9_percentile_gate (X Y : List ℚ) (n : Nat) (ps : List ℚ) :
    binnedPlot X Y n ps = .error .percentileOutOfRange ↔ ∃ p ∈ ps, 50 < p := by
  rw [← calcPercent_none_iff]
  unfold binnedPlot
  cases hcp : calcPercent ps with
  | none => simp
  | some cps =>
    cases hmn : listMin? X with
    | none =>
      cases hmx : listMax? X with
      | none => simp
      | some mx => simp
    | some mn =>
      cases hmx : listMax? X with
      | none => simp
      | some mx => simp
